import Mathlib

/-!
Verification development for the Aravalli delineation pipeline
(`src/aravalli/new_method.py`, `src/aravalli/old_method.py`,
`src/aravalli/stats.py`).

The Python code is shallowly embedded: elevation grids become total
functions `ℕ → ℕ → Option ℚ` (with `none` standing for the NaN no-data
sentinel), binary raster masks become `ℕ → ℕ → Bool`, and calls into
external geometry libraries (shapely, rasterio, matplotlib) are
parameters of the embedded pipelines, so that the control flow and the
arithmetic that the repository itself owns are modelled exactly.
-/

namespace Aravalli

/-! ## DEM data model

`dem_data` dictionaries carry a 2-D elevation array (`elevation`), its
shape, and a scalar pixel size in metres.  `none` cells model NaN. -/

/-- Embedded `dem_data`: elevation grid with shape `h × w` and pixel size. -/
structure DemData where
  Z : ℕ → ℕ → Option ℚ
  h : ℕ
  w : ℕ
  pixel : ℚ

/-- The `params` dictionary of the NEW methods (`new_method.py`), with the
fields read by `_compute_relief_method` and `_compute_contour_method`. -/
structure NewParams where
  reliefThreshold : ℚ
  rangeProximity : ℚ
  reliefRadius : ℚ
  contourInterval : ℚ

/-- Python `int(x)` on a rational: truncation toward zero. -/
def pyInt (x : ℚ) : ℤ :=
  if x < 0 then ⌈x⌉ else ⌊x⌋

/-- Window size of the local-minimum filter, `new_method.py` lines 97–99:
`window_size = max(3, int(relief_radius / pixel_size))`, then incremented
by one if even. -/
def windowSize (reliefRadius pixel : ℚ) : ℤ :=
  let w0 := max 3 (pyInt (reliefRadius / pixel))
  if w0 % 2 = 0 then w0 + 1 else w0

/-- All finite elevation samples of the grid, row major (`Z[Z_finite]`). -/
def finiteVals (d : DemData) : List ℚ :=
  (List.range d.h).flatMap fun i => (List.range d.w).filterMap fun j => d.Z i j

/-- Whether the grid has any finite cell (`np.any(Z_finite)`). -/
def finiteAny (d : DemData) : Bool :=
  (List.range d.h).any fun i => (List.range d.w).any fun j => (d.Z i j).isSome

/-- The fill value used for NaN cells in `_compute_relief_method` line 105:
`np.nanmin(Z[Z_finite]) if np.any(Z_finite) else 0`. -/
def fillValue (d : DemData) : ℚ :=
  match finiteVals d with
  | [] => 0
  | x :: xs => xs.foldl min x

/-- `Z_filled = np.where(Z_finite, Z, fill)`: NaN cells replaced by the
global finite minimum (or 0 when the grid has no finite cell). -/
def zFilled (d : DemData) : ℕ → ℕ → ℚ :=
  fun i j => (d.Z i j).getD (fillValue d)

/-! ## scipy `minimum_filter`

`scipy.ndimage.minimum_filter(Z, size=k)` with the default `reflect`
boundary mode: index `i` outside `[0, n)` is folded back by reflection
about the array edges (`d c b a | a b c d | d c b a`). -/

/-- Reflect an integer index into `[0, n)` (scipy boundary mode `reflect`). -/
def reflectIndex (n : ℕ) (i : ℤ) : ℕ :=
  if n = 0 then 0 else
    let j := i % (2 * (n : ℤ))
    if j < (n : ℤ) then j.toNat else (2 * (n : ℤ) - 1 - j).toNat

/-- The window offsets of a size-`k` filter with scipy's origin
convention: `-(k/2), …, k - k/2 - 1` (for odd `k` this is the centred
window `-(k-1)/2 … (k-1)/2`). -/
def windowOffsets (k : ℕ) : List ℤ :=
  (List.range k).map fun a : ℕ => (a : ℤ) - (k / 2 : ℕ)

/-- The list of grid values inside the `k × k` window at `(i, j)`,
boundary handled by reflection. -/
def windowVals (g : ℕ → ℕ → ℚ) (h w k : ℕ) (i j : ℕ) : List ℚ :=
  (windowOffsets k).flatMap fun di => (windowOffsets k).map fun dj =>
    g (reflectIndex h ((i : ℤ) + di)) (reflectIndex w ((j : ℤ) + dj))

/-- Minimum of a list, with a default for the empty list. -/
def listMinD (l : List ℚ) (dflt : ℚ) : ℚ :=
  match l with
  | [] => dflt
  | v :: vs => vs.foldl min v

/-- `minimum_filter` at one cell: the minimum of the window values. -/
def minFilterAt (g : ℕ → ℕ → ℚ) (h w k : ℕ) (i j : ℕ) : ℚ :=
  listMinD (windowVals g h w k i j) (g i j)

/-- Local relief at one cell, `new_method.py` line 110:
`relief = Z_filled - local_min`. -/
def reliefAt (g : ℕ → ℕ → ℚ) (h w k : ℕ) (i j : ℕ) : ℚ :=
  g i j - minFilterAt g h w k i j

/-- The relief mask of `_compute_relief_method` line 114:
`relief_mask = (relief >= relief_threshold) & Z_finite`. -/
def reliefMaskAt (d : DemData) (k : ℕ) (th : ℚ) (i j : ℕ) : Bool :=
  decide (th ≤ reliefAt (zFilled d) d.h d.w k i j) && (d.Z i j).isSome

/-! ## Helper lemmas on list minima and reflected indices -/

theorem foldl_min_le_init (vs : List ℚ) (v : ℚ) : vs.foldl min v ≤ v := by
  induction vs generalizing v with
  | nil => exact le_refl v
  | cons u us ih =>
    calc (u :: us).foldl min v = us.foldl min (min v u) := rfl
    _ ≤ min v u := ih (min v u)
    _ ≤ v := min_le_left v u

theorem foldl_min_le_mem (vs : List ℚ) (v x : ℚ) (hx : x ∈ vs) :
    vs.foldl min v ≤ x := by
  induction vs generalizing v with
  | nil => cases hx
  | cons u us ih =>
    rcases List.mem_cons.mp hx with h | h
    · subst h
      calc (x :: us).foldl min v = us.foldl min (min v x) := rfl
      _ ≤ min v x := foldl_min_le_init us (min v x)
      _ ≤ x := min_le_right v x
    · exact ih (min v u) h

theorem listMinD_le_mem (l : List ℚ) (dflt x : ℚ) (hx : x ∈ l) :
    listMinD l dflt ≤ x := by
  cases l with
  | nil => cases hx
  | cons v vs =>
    rcases List.mem_cons.mp hx with h | h
    · subst h; exact foldl_min_le_init vs x
    · exact foldl_min_le_mem vs v x h

theorem reflectIndex_of_lt (n : ℕ) (i : ℕ) (hi : i < n) :
    reflectIndex n (i : ℤ) = i := by
  unfold reflectIndex
  have hn : n ≠ 0 := by omega
  rw [if_neg hn]
  have hmod : (i : ℤ) % (2 * (n : ℤ)) = (i : ℤ) := by
    apply Int.emod_eq_of_lt
    · exact Int.ofNat_nonneg i
    · omega
  simp only [hmod]
  rw [if_pos (by exact_mod_cast hi)]
  exact Int.toNat_natCast i

theorem center_mem_windowVals (g : ℕ → ℕ → ℚ) (h w k : ℕ) (i j : ℕ)
    (hk : 0 < k) (hi : i < h) (hj : j < w) :
    g i j ∈ windowVals g h w k i j := by
  have hzero : (0 : ℤ) ∈ windowOffsets k := by
    unfold windowOffsets
    apply List.mem_map.mpr
    exact ⟨(k / 2 : ℕ), List.mem_range.mpr (Nat.div_lt_self hk one_lt_two), by omega⟩
  unfold windowVals
  apply List.mem_flatMap.mpr
  refine ⟨0, hzero, ?_⟩
  apply List.mem_map.mpr
  refine ⟨0, hzero, ?_⟩
  rw [add_zero, add_zero, reflectIndex_of_lt h i hi, reflectIndex_of_lt w j hj]

theorem minFilterAt_le_center (g : ℕ → ℕ → ℚ) (h w k : ℕ) (i j : ℕ)
    (hi : i < h) (hj : j < w) :
    minFilterAt g h w k i j ≤ g i j := by
  cases Nat.eq_zero_or_pos k with
  | inl h0 =>
    subst h0
    simp [minFilterAt, windowVals, windowOffsets, listMinD]
  | inr hk =>
    exact listMinD_le_mem _ _ _ (center_mem_windowVals g h w k i j hk hi hj)

/-- Claim C9: for every positive relief radius and pixel size, the window
size computed for the local-relief minimum filter (`new_method.py` lines
97–99) is odd and at least 3. -/
theorem relief_window_odd_ge_three (r p : ℚ) (hr : 0 < r) (hp : 0 < p) :
    windowSize r p % 2 = 1 ∧ 3 ≤ windowSize r p := by
  unfold windowSize
  have h3 : (3 : ℤ) ≤ max 3 (pyInt (r / p)) := le_max_left _ _
  by_cases h : max 3 (pyInt (r / p)) % 2 = 0
  · rw [if_pos h]
    omega
  · rw [if_neg h]
    omega

/-- Witness for C9 at the default parameters (radius 2000 m, 30 m pixels):
the window size 66 is bumped to the odd 67. -/
theorem relief_window_odd_ge_three_witness :
    windowSize 2000 30 % 2 = 1 ∧ 3 ≤ windowSize 2000 30 :=
  relief_window_odd_ge_three 2000 30 (by norm_num) (by norm_num)

/-- Claim C10: the relief grid (filled elevation minus the sliding-window
minimum of the same filled elevation, `new_method.py` lines 104–114) is
non-negative at every in-grid cell for every input grid and window size,
and with relief threshold 0 the relief mask holds exactly the
finite-elevation cells. -/
theorem relief_nonneg_and_zero_threshold_mask (d : DemData) (k : ℕ) (i j : ℕ)
    (hi : i < d.h) (hj : j < d.w) :
    0 ≤ reliefAt (zFilled d) d.h d.w k i j ∧
      reliefMaskAt d k 0 i j = (d.Z i j).isSome := by
  have hmin := minFilterAt_le_center (zFilled d) d.h d.w k i j hi hj
  have hrel : 0 ≤ reliefAt (zFilled d) d.h d.w k i j := by
    unfold reliefAt
    linarith
  refine ⟨hrel, ?_⟩
  unfold reliefMaskAt
  rw [decide_eq_true hrel, Bool.true_and]

/-- Witness for C10 on a concrete 2×2 grid with one NaN cell. -/
theorem relief_nonneg_and_zero_threshold_mask_witness :
    0 ≤ reliefAt (zFilled ⟨fun i j => if i = 0 ∧ j = 0 then none else some ((i : ℚ) + 10 * j), 2, 2, 30⟩) 2 2 3 0 0 ∧
      reliefMaskAt ⟨fun i j => if i = 0 ∧ j = 0 then none else some ((i : ℚ) + 10 * j), 2, 2, 30⟩ 3 0 0 0 =
        ((⟨fun i j => if i = 0 ∧ j = 0 then none else some ((i : ℚ) + 10 * j), 2, 2, 30⟩ : DemData).Z 0 0).isSome :=
  relief_nonneg_and_zero_threshold_mask
    ⟨fun i j => if i = 0 ∧ j = 0 then none else some ((i : ℚ) + 10 * j), 2, 2, 30⟩
    3 0 0 (by norm_num) (by norm_num)

/-! ## Polygonizer (`_polygonize_mask`, `new_method.py` lines 327–348 and
`old_method.py` lines 265–314)

The vector geometry type `G` is abstract (shapely objects); the two
predicates the code inspects, `is_valid` and `is_empty`, and the external
boundary tracer `rasterio.features.shapes` are parameters.  The tracer is
modelled by the list of `(value, geometry)` pairs it yields for a mask. -/

/-- Embedded `_polygonize_mask` body: keep a traced geometry when its
value is 1, it is valid, and it is non-empty; everything else is dropped
(there is no repair step in the loop). -/
def polygonizeMask {G : Type} (validG emptyG : G → Bool)
    (traced : List (ℕ × G)) : List G :=
  traced.filterMap fun p =>
    if p.1 = 1 then (if validG p.2 && !(emptyG p.2) then some p.2 else none)
    else none

/-- Modelled from the spec (§4.3): each traced polygon must pass a
validity check; invalid polygons are corrected via a zero-width buffer and
dropped only if still invalid or empty after that correction. -/
def polygonizeSpec {G : Type} (validG emptyG : G → Bool) (buffer0 : G → G)
    (traced : List (ℕ × G)) : List G :=
  traced.filterMap fun p =>
    if p.1 = 1 then
      let g := if validG p.2 then p.2 else buffer0 p.2
      if validG g && !(emptyG g) then some g else none
    else none

/-! ## Contour-enclosure engine (`_compute_contour_method`) -/

/-- One entry of `closed_contours`: an elevation level together with the
closed contour polygon at that level. -/
structure ContourG (G : Type) where
  elevation : ℚ
  geom : G
deriving DecidableEq

/-- One entry of `hill_footprints` (`new_method.py` lines 285–290). -/
structure HillFootprint (G : Type) where
  peak_elev : ℚ
  base_elev : ℚ
  relief : ℚ
  geom : G
deriving DecidableEq

/-- The ascending-elevation sort of `closed_contours`
(`closed_contours.sort(key=lambda x: x['elevation'])`). -/
def sortContours {G : Type} (cs : List (ContourG G)) : List (ContourG G) :=
  cs.insertionSort fun a b => a.elevation ≤ b.elevation

/-- The body of the per-peak loop (`new_method.py` lines 271–291): scan
the sorted contours, accept the first whose polygon contains the peak
point and stop (`break`), compute `relief = peak_elev - elevation`, and
keep the footprint only when `relief >= relief_threshold`. -/
def peakFootprint {P G : Type} (containsG : G → P → Bool)
    (sorted : List (ContourG G)) (th pe : ℚ) (pt : P) :
    Option (HillFootprint G) :=
  match sorted.find? (fun c => containsG c.geom pt) with
  | none => none
  | some c =>
    if th ≤ pe - c.elevation then
      some ⟨pe, c.elevation, pe - c.elevation, c.geom⟩
    else none

/-- All retained hill footprints for a peak list (peaks are pairs of
`Z_filled` elevation and projected peak point). -/
def hillFootprints {P G : Type} (containsG : G → P → Bool)
    (cs : List (ContourG G)) (th : ℚ) (peaks : List (ℚ × P)) :
    List (HillFootprint G) :=
  peaks.filterMap fun pk => peakFootprint containsG (sortContours cs) th pk.1 pk.2

/-! ## Proximity clustering -/

/-- Modelled from the spec (§4.6): `clusterByProximity` outward-buffers
the unioned geometry by half the proximity distance, then inward-buffers
by the same amount. -/
def clusterByProximity {G : Type} (buffer : ℚ → G → G) (prox : ℚ) (g : G) : G :=
  buffer (-(prox / 2)) (buffer (prox / 2) g)

/-- shapely `unary_union` over a list of geometries; on a singleton list
it returns the single geometry unchanged. -/
def unaryUnionOf {G : Type} (u : G → G → G) (e : G) : List G → G
  | [] => e
  | g :: gs => gs.foldl u g

/-! ## The NEW methods (`_compute_relief_method`, `_compute_contour_method`,
`compute_new_delineation`)

External collaborators are parameters: `validG`/`emptyG`/`buffer`/`u`/`e`
are shapely operations, `shapesOf` is the rasterio tracer applied to a
mask, `contourGen` is the matplotlib contour-tracing `try` block (an
exception becomes `Except.error`), `peaksOf` is the maximum-filter peak
detector, and `containsG` is shapely point-in-polygon containment. -/

/-- Number of true cells of a mask inside the `h × w` grid (`np.sum`). -/
def countTrue (h w : ℕ) (m : ℕ → ℕ → Bool) : ℕ :=
  ((List.range h).flatMap fun i => (List.range w).filter fun j => m i j).length

/-- The relief mask of `_compute_relief_method` as a whole-grid mask. -/
def reliefMask (d : DemData) (ps : NewParams) : ℕ → ℕ → Bool :=
  fun i j =>
    reliefMaskAt d (windowSize ps.reliefRadius d.pixel).toNat ps.reliefThreshold i j

/-- Embedded `_compute_relief_method` (`new_method.py` lines 66–154): the
layer result is `none` for the empty-layer returns, `some g` for a layer
with geometry `g`. -/
def computeReliefMethod {G : Type} (validG emptyG : G → Bool)
    (buffer : ℚ → G → G) (u : G → G → G) (e : G)
    (shapesOf : (ℕ → ℕ → Bool) → List (ℕ × G))
    (d : DemData) (ps : NewParams) : Option G :=
  let rmask := reliefMask d ps
  if countTrue d.h d.w rmask = 0 then none
  else
    let polys := polygonizeMask validG emptyG (shapesOf rmask)
    if polys.isEmpty then none
    else
      let newUnion := unaryUnionOf u e (polys.map (buffer 0))
      let half := ps.rangeProximity / 2
      some (buffer (-half) (unaryUnionOf u e [buffer half newUnion]))

/-- Embedded `_compute_contour_method` (`new_method.py` lines 157–324). -/
def computeContourMethod {P G : Type} (validG emptyG : G → Bool)
    (buffer : ℚ → G → G) (u : G → G → G) (e : G)
    (shapesOf : (ℕ → ℕ → Bool) → List (ℕ × G))
    (contourGen : DemData → NewParams → Except String (List (ContourG G)))
    (peaksOf : DemData → List (ℚ × P)) (containsG : G → P → Bool)
    (d : DemData) (ps : NewParams) : Option G :=
  if finiteAny d = false then none
  else
    match contourGen d ps with
    | .error _ => computeReliefMethod validG emptyG buffer u e shapesOf d ps
    | .ok closedContours =>
      if closedContours.isEmpty then
        computeReliefMethod validG emptyG buffer u e shapesOf d ps
      else
        let hills := hillFootprints containsG closedContours ps.reliefThreshold (peaksOf d)
        if hills.isEmpty then none
        else
          let allHills := unaryUnionOf u e (hills.map (·.geom))
          let half := ps.rangeProximity / 2
          some (buffer (-half) (unaryUnionOf u e [buffer half allHills]))

/-- Embedded `compute_new_delineation` (`new_method.py` lines 32–63):
dispatch on the `method` parameter; an unknown method raises
`ValueError`. -/
def computeNewDelineation {P G : Type} (validG emptyG : G → Bool)
    (buffer : ℚ → G → G) (u : G → G → G) (e : G)
    (shapesOf : (ℕ → ℕ → Bool) → List (ℕ × G))
    (contourGen : DemData → NewParams → Except String (List (ContourG G)))
    (peaksOf : DemData → List (ℚ × P)) (containsG : G → P → Bool)
    (method : String) (d : DemData) (ps : NewParams) :
    Except String (Option G) :=
  if method = "relief" then
    .ok (computeReliefMethod validG emptyG buffer u e shapesOf d ps)
  else if method = "contour" then
    .ok (computeContourMethod validG emptyG buffer u e shapesOf contourGen
      peaksOf containsG d ps)
  else
    .error ("Unknown method: " ++ method)

/-! ## C1: the enclosure search takes the first (lowest) containing contour -/

theorem sortContours_sorted {G : Type} (cs : List (ContourG G)) :
    List.Sorted (fun a b : ContourG G => a.elevation ≤ b.elevation)
      (sortContours cs) := by
  haveI : IsTotal (ContourG G) (fun a b => a.elevation ≤ b.elevation) :=
    ⟨fun a b => le_total _ _⟩
  haveI : IsTrans (ContourG G) (fun a b => a.elevation ≤ b.elevation) :=
    ⟨fun _ _ _ h1 h2 => le_trans h1 h2⟩
  exact List.sorted_insertionSort _ cs

theorem mem_sortContours {G : Type} {c : ContourG G} {cs : List (ContourG G)} :
    c ∈ sortContours cs ↔ c ∈ cs :=
  (List.perm_insertionSort _ cs).mem_iff

theorem find?_sorted_min {G : Type} (l : List (ContourG G))
    (p : ContourG G → Bool) (c : ContourG G)
    (hs : List.Sorted (fun a b : ContourG G => a.elevation ≤ b.elevation) l)
    (hf : l.find? p = some c) :
    ∀ b ∈ l, p b = true → c.elevation ≤ b.elevation := by
  induction l with
  | nil => cases hf
  | cons x xs ih =>
    by_cases hpx : p x
    · rw [List.find?_cons_of_pos _ hpx] at hf
      injection hf with h
      subst h
      intro b hb _
      rcases List.mem_cons.mp hb with h | hbxs
      · rw [h]
      · exact List.rel_of_sorted_cons hs b hbxs
    · rw [List.find?_cons_of_neg _ hpx] at hf
      intro b hb hpb
      rcases List.mem_cons.mp hb with h | hbxs
      · exact absurd (h ▸ hpb) (by simpa using hpx)
      · exact ih hs.of_cons hf b hbxs hpb

/-- Claim C1: in `_compute_contour_method` (`new_method.py` lines 266–291)
the closed contours are sorted ascending by elevation; for a peak the scan
accepts the first containing contour, which has minimal elevation among
all containing contours; relief is peak elevation minus that contour's
elevation; and the footprint is retained exactly when the relief reaches
the threshold (no containing contour means no footprint). -/
theorem contour_enclosure_first_lowest {P G : Type} (containsG : G → P → Bool)
    (cs : List (ContourG G)) (th pe : ℚ) (pt : P) :
    List.Sorted (fun a b : ContourG G => a.elevation ≤ b.elevation)
        (sortContours cs)
    ∧ ((∀ c ∈ cs, containsG c.geom pt = false) →
        peakFootprint containsG (sortContours cs) th pe pt = none)
    ∧ (∀ c, (sortContours cs).find? (fun c => containsG c.geom pt) = some c →
        c ∈ cs ∧ containsG c.geom pt = true
        ∧ (∀ b ∈ cs, containsG b.geom pt = true → c.elevation ≤ b.elevation)
        ∧ peakFootprint containsG (sortContours cs) th pe pt =
            (if th ≤ pe - c.elevation then
              some ⟨pe, c.elevation, pe - c.elevation, c.geom⟩ else none)) := by
  refine ⟨sortContours_sorted cs, ?_, ?_⟩
  · intro hall
    have hnone : (sortContours cs).find? (fun c => containsG c.geom pt) = none := by
      apply List.find?_eq_none.mpr
      intro x hx
      have := hall x (mem_sortContours.mp hx)
      simp [this]
    unfold peakFootprint
    rw [hnone]
  · intro c hf
    have hmem : c ∈ cs := mem_sortContours.mp (List.mem_of_find?_eq_some hf)
    have hcont0 := List.find?_some hf
    have hcont : containsG c.geom pt = true := by simpa using hcont0
    refine ⟨hmem, hcont, ?_, ?_⟩
    · intro b hb hpb
      exact find?_sorted_min _ _ c (sortContours_sorted cs) hf b
        (mem_sortContours.mpr hb) hpb
    · unfold peakFootprint
      rw [hf]

/-- Witness for C1: two nested contours (elevations 100 and 50) both
containing the single peak point; the search assigns the peak to the
lower contour and keeps it since relief 40 ≥ threshold 30. -/
theorem contour_enclosure_first_lowest_witness :
    peakFootprint (P := Unit) (G := ℚ) (fun _ _ => true)
        (sortContours [⟨100, 1⟩, ⟨50, 2⟩]) 30 90 () =
      (if (30 : ℚ) ≤ 90 - 50 then some ⟨90, 50, 90 - 50, 2⟩ else none) :=
  ((contour_enclosure_first_lowest (P := Unit) (G := ℚ) (fun _ _ => true)
      [⟨100, 1⟩, ⟨50, 2⟩] 30 90 ()).2.2 ⟨50, 2⟩ (by decide)).2.2.2

/-! ## C3: fallback from the contour method to the relief method -/

/-- Claim C3: when contour tracing raises (the `try` block of
`new_method.py` lines 205–242) or yields zero closed contours (lines
246–248), the contour method returns the relief method's result on the
same DEM and parameters instead of failing. -/
theorem contour_method_fallback {P G : Type} (validG emptyG : G → Bool)
    (buffer : ℚ → G → G) (u : G → G → G) (e : G)
    (shapesOf : (ℕ → ℕ → Bool) → List (ℕ × G))
    (contourGen : DemData → NewParams → Except String (List (ContourG G)))
    (peaksOf : DemData → List (ℚ × P)) (containsG : G → P → Bool)
    (d : DemData) (ps : NewParams)
    (hfin : finiteAny d = true)
    (hgen : (∃ msg, contourGen d ps = .error msg) ∨ contourGen d ps = .ok []) :
    computeContourMethod validG emptyG buffer u e shapesOf contourGen
        peaksOf containsG d ps =
      computeReliefMethod validG emptyG buffer u e shapesOf d ps := by
  unfold computeContourMethod
  rcases hgen with ⟨msg, hmsg⟩ | hok
  · simp [hfin, hmsg]
  · simp [hfin, hok]

/-- Witness for C3: a contour generator that always raises; the contour
method output coincides with the relief method output. -/
theorem contour_method_fallback_witness :
    computeContourMethod (P := Unit) (G := ℚ) (fun _ => true) (fun _ => false)
        (fun a g => g + a) (fun a b => a + b) 0 (fun _ => [(1, (5 : ℚ))])
        (fun _ _ => .error "tracing failed") (fun _ => []) (fun _ _ => true)
        ⟨fun _ _ => some 7, 1, 1, 30⟩ ⟨0, 500, 2000, 10⟩ =
      computeReliefMethod (G := ℚ) (fun _ => true) (fun _ => false)
        (fun a g => g + a) (fun a b => a + b) 0 (fun _ => [(1, (5 : ℚ))])
        ⟨fun _ _ => some 7, 1, 1, 30⟩ ⟨0, 500, 2000, 10⟩ :=
  contour_method_fallback (P := Unit) (G := ℚ) (fun _ => true) (fun _ => false)
    (fun a g => g + a) (fun a b => a + b) 0 (fun _ => [(1, (5 : ℚ))])
    (fun _ _ => .error "tracing failed") (fun _ => []) (fun _ _ => true)
    ⟨fun _ _ => some 7, 1, 1, 30⟩ ⟨0, 500, 2000, 10⟩ (by decide)
    (Or.inl ⟨"tracing failed", rfl⟩)

/-! ## C7: proximity clustering is the same buffer-out/buffer-in step in
both NEW methods, applied to the unioned geometry -/

/-- Claim C7: in both `_compute_relief_method` (lines 135–142) and
`_compute_contour_method` (lines 306–312) the final geometry is exactly
`clusterByProximity` — an outward buffer by half the proximity followed by
an inward buffer by the same amount — applied to the geometry produced by
the preceding polygonization/union step. -/
theorem proximity_clustering_identical_after_union {P G : Type}
    (validG emptyG : G → Bool) (buffer : ℚ → G → G) (u : G → G → G) (e : G)
    (shapesOf : (ℕ → ℕ → Bool) → List (ℕ × G))
    (contourGen : DemData → NewParams → Except String (List (ContourG G)))
    (peaksOf : DemData → List (ℚ × P)) (containsG : G → P → Bool) :
    (∀ (d : DemData) (ps : NewParams),
      countTrue d.h d.w (reliefMask d ps) ≠ 0 →
      polygonizeMask validG emptyG (shapesOf (reliefMask d ps)) ≠ [] →
      computeReliefMethod validG emptyG buffer u e shapesOf d ps =
        some (clusterByProximity buffer ps.rangeProximity
          (unaryUnionOf u e
            ((polygonizeMask validG emptyG (shapesOf (reliefMask d ps))).map
              (buffer 0)))))
    ∧ (∀ (d : DemData) (ps : NewParams) (cs : List (ContourG G)),
      finiteAny d = true →
      contourGen d ps = .ok cs → cs ≠ [] →
      hillFootprints containsG cs ps.reliefThreshold (peaksOf d) ≠ [] →
      computeContourMethod validG emptyG buffer u e shapesOf contourGen
          peaksOf containsG d ps =
        some (clusterByProximity buffer ps.rangeProximity
          (unaryUnionOf u e
            ((hillFootprints containsG cs ps.reliefThreshold (peaksOf d)).map
              (·.geom))))) := by
  constructor
  · intro d ps hcount hpolys
    unfold computeReliefMethod
    rw [if_neg hcount]
    rw [if_neg (by simpa [List.isEmpty_iff] using hpolys)]
    rfl
  · intro d ps cs hfin hok hcs hhills
    unfold computeContourMethod
    simp only [hfin, Bool.true_eq_false, if_false, hok]
    rw [if_neg (by simpa [List.isEmpty_iff] using hcs)]
    rw [if_neg (by simpa [List.isEmpty_iff] using hhills)]
    rfl

/-- A concrete 1×1 DEM with a single finite cell, for witnesses. -/
def demoDem : DemData := ⟨fun _ _ => some 7, 1, 1, 30⟩

/-- Concrete NEW-method parameters for witnesses (threshold 0, proximity
500 m, relief radius 3 m, contour interval 10 m). -/
def demoPs : NewParams := ⟨0, 500, 3, 10⟩

/-- Witness for C7 at concrete instantiations of both methods. -/
theorem proximity_clustering_identical_after_union_witness :
    (computeReliefMethod (G := ℚ) (fun _ => true) (fun _ => false)
        (fun a g => g + a) (fun a b => a + b) 0 (fun _ => [(1, (5 : ℚ))])
        demoDem demoPs =
      some (clusterByProximity (fun a g => g + a) demoPs.rangeProximity
        (unaryUnionOf (fun a b => a + b) 0
          ((polygonizeMask (fun _ => true) (fun _ => false)
              ((fun _ => [(1, (5 : ℚ))]) (reliefMask demoDem demoPs))).map
            ((fun a g => g + a) 0)))))
    ∧ (computeContourMethod (P := Unit) (G := ℚ) (fun _ => true) (fun _ => false)
        (fun a g => g + a) (fun a b => a + b) 0 (fun _ => [(1, (5 : ℚ))])
        (fun _ _ => .ok [⟨50, 2⟩]) (fun _ => [(90, ())]) (fun _ _ => true)
        demoDem demoPs =
      some (clusterByProximity (fun a g => g + a) demoPs.rangeProximity
        (unaryUnionOf (fun a b => a + b) 0
          ((hillFootprints (P := Unit) (G := ℚ) (fun _ _ => true) [⟨50, 2⟩]
              demoPs.reliefThreshold ((fun _ => [(90, ())]) demoDem)).map
            (·.geom))))) := by
  have h := proximity_clustering_identical_after_union (P := Unit) (G := ℚ)
    (fun _ => true) (fun _ => false) (fun a g => g + a) (fun a b => a + b) 0
    (fun _ => [(1, (5 : ℚ))]) (fun _ _ => .ok [⟨50, 2⟩]) (fun _ => [(90, ())])
    (fun _ _ => true)
  have hrel : (0 : ℚ) ≤ reliefAt (zFilled demoDem) demoDem.h demoDem.w
      (windowSize demoPs.reliefRadius demoDem.pixel).toNat 0 0 := by
    have hle := minFilterAt_le_center (zFilled demoDem) demoDem.h demoDem.w
      (windowSize demoPs.reliefRadius demoDem.pixel).toNat 0 0
      (by norm_num [demoDem]) (by norm_num [demoDem])
    unfold reliefAt
    linarith
  have hm : reliefMask demoDem demoPs 0 0 = true := by
    unfold reliefMask reliefMaskAt
    have hth : demoPs.reliefThreshold = 0 := rfl
    rw [hth, decide_eq_true hrel]
    rfl
  have hcount : countTrue demoDem.h demoDem.w (reliefMask demoDem demoPs) ≠ 0 := by
    have h1 : countTrue demoDem.h demoDem.w (reliefMask demoDem demoPs) = 1 := by
      show countTrue 1 1 (reliefMask demoDem demoPs) = 1
      simp [countTrue, List.range_succ, List.range_zero, hm]
    omega
  have hh : hillFootprints (P := Unit) (G := ℚ) (fun _ _ => true) [⟨50, 2⟩]
      demoPs.reliefThreshold [(90, ())] = [⟨90, 50, 40, 2⟩] := by
    norm_num [hillFootprints, peakFootprint, sortContours, List.filterMap_cons,
      demoPs]
  exact ⟨h.1 demoDem demoPs hcount (by decide),
    h.2 demoDem demoPs [⟨50, 2⟩] (by decide) rfl (by decide)
      (by simp [hh])⟩

/-! ## C2: the polygonizer drops invalid polygons without repair -/

/-- Counterexample to C2: an invalid (but repairable) traced geometry.
Geometries are modelled as `(is_valid, is_empty)` flag pairs; the
zero-width buffer repair `fun _ => (true, false)` would produce a valid,
non-empty polygon, yet `_polygonize_mask` simply drops the invalid input
(compare `new_method.py` lines 341–343 and `old_method.py` lines
306–309), while the behaviour the spec describes would keep the repaired
polygon. -/
theorem polygonize_repair_counterexample :
    polygonizeMask (G := Bool × Bool) Prod.fst Prod.snd
        [(1, (false, false))] = []
    ∧ polygonizeSpec (G := Bool × Bool) Prod.fst Prod.snd
        (fun _ => (true, false)) [(1, (false, false))] = [(true, false)] := by
  decide

/-- Claim C2 as amended: for every binary mask the polygonizer keeps
exactly the traced value-1 polygons that are already valid and non-empty;
invalid or empty polygons are discarded directly, with no zero-width
buffer repair attempted inside `_polygonize_mask`. -/
theorem polygonize_keeps_exactly_valid_nonempty {G : Type}
    (validG emptyG : G → Bool) (traced : List (ℕ × G)) (g : G) :
    g ∈ polygonizeMask validG emptyG traced ↔
      ((∃ p ∈ traced, p.1 = 1 ∧ p.2 = g) ∧ validG g = true ∧ emptyG g = false) := by
  unfold polygonizeMask
  rw [List.mem_filterMap]
  constructor
  · rintro ⟨p, hp, he⟩
    by_cases h1 : p.1 = 1
    · rw [if_pos h1] at he
      by_cases h2 : (validG p.2 && !(emptyG p.2)) = true
      · rw [if_pos h2] at he
        have hpg : p.2 = g := by injection he
        rcases (Bool.and_eq_true _ _).mp h2 with ⟨hv, hne⟩
        subst hpg
        exact ⟨⟨p, hp, h1, rfl⟩, hv, by simpa using hne⟩
      · rw [if_neg h2] at he
        cases he
    · rw [if_neg h1] at he
      cases he
  · rintro ⟨⟨p, hp, h1, h2⟩, hv, hne⟩
    refine ⟨p, hp, ?_⟩
    rw [if_pos h1, h2, hv, hne]
    simp

/-! ## C4: an all-NaN DEM grid yields an empty layer, not an error -/

theorem countTrue_eq_zero_iff (h w : ℕ) (m : ℕ → ℕ → Bool) :
    countTrue h w m = 0 ↔ ∀ i < h, ∀ j < w, m i j = false := by
  unfold countTrue
  rw [List.length_eq_zero, List.flatMap_eq_nil_iff]
  constructor
  · intro hnil i hi j hj
    by_contra hm
    have hmem : j ∈ (List.range w).filter fun j => m i j := by
      rw [List.mem_filter]
      exact ⟨List.mem_range.mpr hj, by simpa using hm⟩
    rw [hnil i (List.mem_range.mpr hi)] at hmem
    cases hmem
  · intro hall i hi
    rw [List.filter_eq_nil_iff]
    intro j hj
    simp [hall i (List.mem_range.mp hi) j (List.mem_range.mp hj)]

theorem finiteAny_eq_false_iff (d : DemData) :
    finiteAny d = false ↔ ∀ i < d.h, ∀ j < d.w, (d.Z i j).isSome = false := by
  unfold finiteAny
  constructor
  · intro hfin i hi j hj
    by_contra hm
    have : (List.range d.h).any (fun i => (List.range d.w).any fun j => (d.Z i j).isSome) = true := by
      rw [List.any_eq_true]
      refine ⟨i, List.mem_range.mpr hi, ?_⟩
      rw [List.any_eq_true]
      exact ⟨j, List.mem_range.mpr hj, by revert hm; cases (d.Z i j).isSome <;> simp⟩
    rw [hfin] at this
    cases this
  · intro hall
    rw [Bool.eq_false_iff]
    intro htrue
    rw [List.any_eq_true] at htrue
    rcases htrue with ⟨i, hi, hrow⟩
    rw [List.any_eq_true] at hrow
    rcases hrow with ⟨j, hj, hcell⟩
    rw [hall i (List.mem_range.mp hi) j (List.mem_range.mp hj)] at hcell
    cases hcell

/-- Counterexample to C4: on a 2×2 DEM whose cells are all NaN, the
contour-method run does not raise — `compute_new_delineation` returns an
ordinary empty-layer result (`new_method.py` lines 189–191 return an
empty GeoDataFrame instead of raising). -/
theorem all_nan_returns_empty_counterexample :
    computeNewDelineation (P := Unit) (G := ℚ) (fun _ => true) (fun _ => false)
        (fun a g => g + a) (fun a b => a + b) 0 (fun _ => [])
        (fun _ _ => .ok []) (fun _ => []) (fun _ _ => true) "contour"
        ⟨fun _ _ => none, 2, 2, 30⟩ ⟨100, 500, 2000, 10⟩ = .ok none := by
  rfl

/-- Claim C4 as amended: for every DEM grid with no finite values at all,
neither NEW method raises; the contour method returns the empty layer at
its finiteness guard, and the relief method returns the empty layer
because its relief mask is everywhere false. -/
theorem all_nan_new_methods_return_empty {P G : Type}
    (validG emptyG : G → Bool) (buffer : ℚ → G → G) (u : G → G → G) (e : G)
    (shapesOf : (ℕ → ℕ → Bool) → List (ℕ × G))
    (contourGen : DemData → NewParams → Except String (List (ContourG G)))
    (peaksOf : DemData → List (ℚ × P)) (containsG : G → P → Bool)
    (d : DemData) (ps : NewParams)
    (hfin : finiteAny d = false) :
    computeContourMethod validG emptyG buffer u e shapesOf contourGen
        peaksOf containsG d ps = none
    ∧ computeReliefMethod validG emptyG buffer u e shapesOf d ps = none := by
  constructor
  · unfold computeContourMethod
    rw [if_pos hfin]
  · have hz := (finiteAny_eq_false_iff d).mp hfin
    have hmask : countTrue d.h d.w (reliefMask d ps) = 0 := by
      rw [countTrue_eq_zero_iff]
      intro i hi j hj
      unfold reliefMask reliefMaskAt
      rw [hz i hi j hj, Bool.and_false]
    unfold computeReliefMethod
    rw [if_pos hmask]

/-- Witness for the amended C4 on a concrete all-NaN 2×2 grid. -/
theorem all_nan_new_methods_return_empty_witness :
    computeContourMethod (P := Unit) (G := ℚ) (fun _ => true) (fun _ => false)
        (fun a g => g + a) (fun a b => a + b) 0 (fun _ => [])
        (fun _ _ => .ok []) (fun _ => []) (fun _ _ => true)
        ⟨fun _ _ => none, 2, 2, 30⟩ ⟨100, 500, 2000, 10⟩ = none
    ∧ computeReliefMethod (G := ℚ) (fun _ => true) (fun _ => false)
        (fun a g => g + a) (fun a b => a + b) 0 (fun _ => [])
        ⟨fun _ _ => none, 2, 2, 30⟩ ⟨100, 500, 2000, 10⟩ = none :=
  all_nan_new_methods_return_empty (P := Unit) (G := ℚ) (fun _ => true)
    (fun _ => false) (fun a g => g + a) (fun a b => a + b) 0 (fun _ => [])
    (fun _ _ => .ok []) (fun _ => []) (fun _ _ => true)
    ⟨fun _ _ => none, 2, 2, 30⟩ ⟨100, 500, 2000, 10⟩ (by decide)

/-! ## OLD (FSI-like) method (`old_method.py`)

Raster masks live on an `h × w` grid; cells outside the grid count as 0
(scipy `border_value=0`).  Slope values are an `Option ℚ` grid computed by
`_compute_slope_degrees` (NaN where the DEM is NaN); the urban exclusion
mask is optional, as in `_generate_urban_mask`. -/

/-- The parameters of `compute_old_delineation`. -/
structure OldParams where
  slopeThreshold : ℚ
  foothillBuffer : ℚ
  gapBridge : ℚ

/-- `scipy.ndimage.generate_binary_structure(2, 1)`: the 4-connected
cross structuring element, as centre-relative offsets. -/
def struct4 : List (ℤ × ℤ) :=
  [(-1, 0), (0, -1), (0, 0), (0, 1), (1, 0)]

/-- Bounds check for an `h × w` grid. -/
def inGrid (h w : ℕ) (i j : ℤ) : Bool :=
  decide (0 ≤ i) && decide (i < (h : ℤ)) && decide (0 ≤ j) && decide (j < (w : ℤ))

/-- One binary dilation step with the 4-connected element (outside the
grid counts as 0). -/
def dilateOnce (h w : ℕ) (m : ℕ → ℕ → Bool) : ℕ → ℕ → Bool :=
  fun i j => struct4.any fun d =>
    inGrid h w ((i : ℤ) - d.1) ((j : ℤ) - d.2) &&
      m ((i : ℤ) - d.1).toNat ((j : ℤ) - d.2).toNat

/-- One binary erosion step with the 4-connected element (outside the
grid counts as 0, scipy `border_value=0`). -/
def erodeOnce (h w : ℕ) (m : ℕ → ℕ → Bool) : ℕ → ℕ → Bool :=
  fun i j => struct4.all fun d =>
    inGrid h w ((i : ℤ) + d.1) ((j : ℤ) + d.2) &&
      m ((i : ℤ) + d.1).toNat ((j : ℤ) + d.2).toNat

/-- `scipy.ndimage.binary_dilation(m, structure, iterations=n)`. -/
def binaryDilation (h w : ℕ) (m : ℕ → ℕ → Bool) (n : ℕ) : ℕ → ℕ → Bool :=
  (dilateOnce h w)^[n] m

/-- `scipy.ndimage.binary_erosion(m, structure, iterations=n)`. -/
def binaryErosion (h w : ℕ) (m : ℕ → ℕ → Bool) (n : ℕ) : ℕ → ℕ → Bool :=
  (erodeOnce h w)^[n] m

/-- `scipy.ndimage.binary_closing(m, structure, iterations=n)`: `n`
dilations followed by `n` erosions. -/
def binaryClosing (h w : ℕ) (m : ℕ → ℕ → Bool) (n : ℕ) : ℕ → ℕ → Bool :=
  binaryErosion h w (binaryDilation h w m n) n

/-- `old_method.py` line 94: `gap_pixels = int(np.ceil(gap_bridge /
pixel_size / 2))`. -/
def gapPixels (gapBridge pixel : ℚ) : ℤ :=
  ⌈gapBridge / pixel / 2⌉

/-- `old_method.py` line 93: `buffer_pixels = int(np.ceil(foothill_buffer
/ pixel_size))`. -/
def bufferPixels (foothillBuffer pixel : ℚ) : ℤ :=
  ⌈foothillBuffer / pixel⌉

/-- `old_method.py` line 65: `slope_mask = (slope_deg > slope_threshold)
& np.isfinite(Z)` (a NaN slope compares false). -/
def oldSlopeMask (slopeDeg Z : ℕ → ℕ → Option ℚ) (th : ℚ) : ℕ → ℕ → Bool :=
  fun i j =>
    (match slopeDeg i j with
      | some s => decide (th < s)
      | none => false) && (Z i j).isSome

/-- `old_method.py` lines 76–83: urban pixels are excluded from the slope
mask when an urban mask exists and has at least one set pixel. -/
def applyUrban (h w : ℕ) (m : ℕ → ℕ → Bool) (urban : Option (ℕ → ℕ → Bool)) :
    ℕ → ℕ → Bool :=
  match urban with
  | none => m
  | some u =>
    if countTrue h w u = 0 then m else fun i j => m i j && !(u i j)

/-- The raster mask produced by `compute_old_delineation` lines 59–109:
threshold, urban exclusion, then the guarded closing and dilation
stages. -/
def oldFinalMask (slopeDeg Z : ℕ → ℕ → Option ℚ)
    (urban : Option (ℕ → ℕ → Bool)) (h w : ℕ) (pixel : ℚ) (ps : OldParams) :
    ℕ → ℕ → Bool :=
  let sm2 := applyUrban h w (oldSlopeMask slopeDeg Z ps.slopeThreshold) urban
  let gp := gapPixels ps.gapBridge pixel
  let bp := bufferPixels ps.foothillBuffer pixel
  let m1 := if 0 < gp then binaryClosing h w sm2 gp.toNat else sm2
  if 0 < bp then binaryDilation h w m1 bp.toNat else m1

/-- Embedded `compute_old_delineation` (`old_method.py` lines 24–136):
empty-mask early return, then polygonize the final mask and dissolve with
a zero-width buffer before union. -/
def computeOldDelineation {G : Type} (validG emptyG : G → Bool)
    (buffer : ℚ → G → G) (u : G → G → G) (e : G)
    (shapesOf : (ℕ → ℕ → Bool) → List (ℕ × G))
    (slopeDeg Z : ℕ → ℕ → Option ℚ) (urban : Option (ℕ → ℕ → Bool))
    (h w : ℕ) (pixel : ℚ) (ps : OldParams) : Option G :=
  let sm2 := applyUrban h w (oldSlopeMask slopeDeg Z ps.slopeThreshold) urban
  if countTrue h w sm2 = 0 then none
  else
    let polys := polygonizeMask validG emptyG
      (shapesOf (oldFinalMask slopeDeg Z urban h w pixel ps))
    if polys.isEmpty then none
    else some (unaryUnionOf u e (polys.map (buffer 0)))

/-! ### Spec-side stage functions (written from §4.2 of the spec) -/

/-- Modelled from the spec: `excludeMask` is logical AND with the negation
of an optional exclusion mask; an absent exclusion is a no-op. -/
def specExcludeMask (m : ℕ → ℕ → Bool) (excl : Option (ℕ → ℕ → Bool)) :
    ℕ → ℕ → Bool :=
  match excl with
  | none => m
  | some u => fun i j => m i j && !(u i j)

/-- Modelled from the spec: `morphologicalClose` converts the radius to
`⌈radius / pixelSize / 2⌉` iterations of 4-connected binary closing. -/
def specMorphClose (h w : ℕ) (m : ℕ → ℕ → Bool) (r p : ℚ) : ℕ → ℕ → Bool :=
  binaryClosing h w m (⌈r / p / 2⌉ : ℤ).toNat

/-- Modelled from the spec: `dilate` converts the radius to
`⌈radius / pixelSize⌉` iterations of 4-connected binary dilation. -/
def specDilate (h w : ℕ) (m : ℕ → ℕ → Bool) (r p : ℚ) : ℕ → ℕ → Bool :=
  binaryDilation h w m (⌈r / p⌉ : ℤ).toNat

/-! ### Congruence of the morphological stages on in-grid cells -/

theorem dilateOnce_congr (h w : ℕ) (m m2 : ℕ → ℕ → Bool)
    (hmm : ∀ i, i < h → ∀ j, j < w → m i j = m2 i j) :
    dilateOnce h w m = dilateOnce h w m2 := by
  funext i j
  unfold dilateOnce
  congr 1
  funext d
  cases hin : inGrid h w ((i : ℤ) - d.1) ((j : ℤ) - d.2) with
  | false => rw [Bool.false_and, Bool.false_and]
  | true =>
    rw [Bool.true_and, Bool.true_and]
    simp only [inGrid, Bool.and_eq_true, decide_eq_true_eq] at hin
    exact hmm _ (by omega) _ (by omega)

theorem erodeOnce_congr (h w : ℕ) (m m2 : ℕ → ℕ → Bool)
    (hmm : ∀ i, i < h → ∀ j, j < w → m i j = m2 i j) :
    erodeOnce h w m = erodeOnce h w m2 := by
  funext i j
  unfold erodeOnce
  congr 1
  funext d
  cases hin : inGrid h w ((i : ℤ) + d.1) ((j : ℤ) + d.2) with
  | false => rw [Bool.false_and, Bool.false_and]
  | true =>
    rw [Bool.true_and, Bool.true_and]
    simp only [inGrid, Bool.and_eq_true, decide_eq_true_eq] at hin
    exact hmm _ (by omega) _ (by omega)

theorem binaryDilation_inGrid_congr (h w n : ℕ) (m m2 : ℕ → ℕ → Bool)
    (hmm : ∀ i, i < h → ∀ j, j < w → m i j = m2 i j) :
    ∀ i, i < h → ∀ j, j < w →
      binaryDilation h w m n i j = binaryDilation h w m2 n i j := by
  cases n with
  | zero => exact hmm
  | succ k =>
    intro i hi j hj
    unfold binaryDilation
    rw [Function.iterate_succ_apply, Function.iterate_succ_apply,
      dilateOnce_congr h w m m2 hmm]

theorem binaryErosion_inGrid_congr (h w n : ℕ) (m m2 : ℕ → ℕ → Bool)
    (hmm : ∀ i, i < h → ∀ j, j < w → m i j = m2 i j) :
    ∀ i, i < h → ∀ j, j < w →
      binaryErosion h w m n i j = binaryErosion h w m2 n i j := by
  cases n with
  | zero => exact hmm
  | succ k =>
    intro i hi j hj
    unfold binaryErosion
    rw [Function.iterate_succ_apply, Function.iterate_succ_apply,
      erodeOnce_congr h w m m2 hmm]

theorem binaryClosing_inGrid_congr (h w n : ℕ) (m m2 : ℕ → ℕ → Bool)
    (hmm : ∀ i, i < h → ∀ j, j < w → m i j = m2 i j) :
    ∀ i, i < h → ∀ j, j < w →
      binaryClosing h w m n i j = binaryClosing h w m2 n i j := by
  unfold binaryClosing
  exact binaryErosion_inGrid_congr h w n _ _
    (binaryDilation_inGrid_congr h w n m m2 hmm)

/-! ### The zero-iteration guards are no-ops -/

theorem guard_closing_eq (h w : ℕ) (m : ℕ → ℕ → Bool) (gp : ℤ) :
    (if 0 < gp then binaryClosing h w m gp.toNat else m) =
      binaryClosing h w m gp.toNat := by
  by_cases hg : 0 < gp
  · rw [if_pos hg]
  · rw [if_neg hg]
    have h0 : gp.toNat = 0 := by omega
    rw [h0]
    rfl

theorem guard_dilation_eq (h w : ℕ) (m : ℕ → ℕ → Bool) (bp : ℤ) :
    (if 0 < bp then binaryDilation h w m bp.toNat else m) =
      binaryDilation h w m bp.toNat := by
  by_cases hb : 0 < bp
  · rw [if_pos hb]
  · rw [if_neg hb]
    have h0 : bp.toNat = 0 := by omega
    rw [h0]
    rfl

/-- Claim C5: on every in-grid cell the OLD-method raster pipeline equals
the spec-side composition threshold → exclude urban → morphological close
→ dilate, in exactly that order (closing before dilation). -/
theorem old_pipeline_stage_order (slopeDeg Z : ℕ → ℕ → Option ℚ)
    (urban : Option (ℕ → ℕ → Bool)) (h w : ℕ) (pixel : ℚ) (ps : OldParams)
    (i j : ℕ) (hi : i < h) (hj : j < w) :
    oldFinalMask slopeDeg Z urban h w pixel ps i j =
      specDilate h w
        (specMorphClose h w
          (specExcludeMask (oldSlopeMask slopeDeg Z ps.slopeThreshold) urban)
          ps.gapBridge pixel)
        ps.foothillBuffer pixel i j := by
  have hex : ∀ i2, i2 < h → ∀ j2, j2 < w →
      applyUrban h w (oldSlopeMask slopeDeg Z ps.slopeThreshold) urban i2 j2 =
      specExcludeMask (oldSlopeMask slopeDeg Z ps.slopeThreshold) urban i2 j2 := by
    intro i2 hi2 j2 hj2
    cases urban with
    | none => rfl
    | some uu =>
      show (if countTrue h w uu = 0
          then oldSlopeMask slopeDeg Z ps.slopeThreshold
          else fun i3 j3 =>
            oldSlopeMask slopeDeg Z ps.slopeThreshold i3 j3 && !(uu i3 j3)) i2 j2 =
        (oldSlopeMask slopeDeg Z ps.slopeThreshold i2 j2 && !(uu i2 j2))
      by_cases hc : countTrue h w uu = 0
      · rw [if_pos hc]
        have hu : uu i2 j2 = false :=
          (countTrue_eq_zero_iff h w uu).mp hc i2 hi2 j2 hj2
        rw [hu]
        simp
      · rw [if_neg hc]
  have hclose := binaryClosing_inGrid_congr h w
    (gapPixels ps.gapBridge pixel).toNat _ _ hex
  have hdil := binaryDilation_inGrid_congr h w
    (bufferPixels ps.foothillBuffer pixel).toNat _ _ hclose
  show (let sm2 := applyUrban h w (oldSlopeMask slopeDeg Z ps.slopeThreshold) urban
    let gp := gapPixels ps.gapBridge pixel
    let bp := bufferPixels ps.foothillBuffer pixel
    let m1 := if 0 < gp then binaryClosing h w sm2 gp.toNat else sm2
    if 0 < bp then binaryDilation h w m1 bp.toNat else m1) i j = _
  simp only [guard_closing_eq, guard_dilation_eq]
  exact hdil i hi j hj

/-- Witness for C5 on a concrete 1×1 grid with no urban mask. -/
theorem old_pipeline_stage_order_witness :
    oldFinalMask (fun _ _ => some 5) (fun _ _ => some 7) none 1 1 30 ⟨3, 100, 500⟩ 0 0 =
      specDilate 1 1
        (specMorphClose 1 1
          (specExcludeMask (oldSlopeMask (fun _ _ => some 5) (fun _ _ => some 7)
            (⟨3, 100, 500⟩ : OldParams).slopeThreshold) none)
          (⟨3, 100, 500⟩ : OldParams).gapBridge 30)
        (⟨3, 100, 500⟩ : OldParams).foothillBuffer 30 0 0 :=
  old_pipeline_stage_order (fun _ _ => some 5) (fun _ _ => some 7) none 1 1 30
    ⟨3, 100, 500⟩ 0 0 (by norm_num) (by norm_num)

/-- Claim C6: the closing radius becomes `⌈gap/pixel/2⌉` iterations and
the dilation radius `⌈buffer/pixel⌉` iterations; the guarded stages equal
plain iteration (skipping is the same as zero iterations); and the
structuring element is exactly the 4-connected neighbourhood. -/
theorem old_radius_iteration_counts (h w : ℕ)
    (gapBridge foothillBuffer pixel : ℚ) (hp : 0 < pixel) :
    gapPixels gapBridge pixel = ⌈gapBridge / pixel / 2⌉
    ∧ bufferPixels foothillBuffer pixel = ⌈foothillBuffer / pixel⌉
    ∧ (∀ m : ℕ → ℕ → Bool,
        (if 0 < gapPixels gapBridge pixel then
          binaryClosing h w m (gapPixels gapBridge pixel).toNat else m) =
          binaryClosing h w m (gapPixels gapBridge pixel).toNat)
    ∧ (∀ m : ℕ → ℕ → Bool,
        (if 0 < bufferPixels foothillBuffer pixel then
          binaryDilation h w m (bufferPixels foothillBuffer pixel).toNat else m) =
          binaryDilation h w m (bufferPixels foothillBuffer pixel).toNat)
    ∧ (∀ a b : ℤ, (a, b) ∈ struct4 ↔ a.natAbs + b.natAbs ≤ 1) := by
  refine ⟨rfl, rfl, fun m => guard_closing_eq h w m _,
    fun m => guard_dilation_eq h w m _, fun a b => ?_⟩
  constructor
  · intro hmem
    simp only [struct4, List.mem_cons, List.mem_singleton, Prod.mk.injEq,
      List.not_mem_nil, or_false] at hmem
    rcases hmem with ⟨rfl, rfl⟩ | ⟨rfl, rfl⟩ | ⟨rfl, rfl⟩ | ⟨rfl, rfl⟩ | ⟨rfl, rfl⟩ <;> simp
  · intro hab
    have ha : a = -1 ∨ a = 0 ∨ a = 1 := by omega
    have hb : b = -1 ∨ b = 0 ∨ b = 1 := by omega
    rcases ha with rfl | rfl | rfl <;> rcases hb with rfl | rfl | rfl <;>
      first
        | (exfalso; omega)
        | decide

/-- Witness for C6 at the FSI defaults (gap 500 m, buffer 100 m, 30 m
pixels) on a 1×1 grid. -/
theorem old_radius_iteration_counts_witness :
    gapPixels 500 30 = ⌈(500 : ℚ) / 30 / 2⌉
    ∧ bufferPixels 100 30 = ⌈(100 : ℚ) / 30⌉
    ∧ (∀ m : ℕ → ℕ → Bool,
        (if 0 < gapPixels 500 30 then
          binaryClosing 1 1 m (gapPixels 500 30).toNat else m) =
          binaryClosing 1 1 m (gapPixels 500 30).toNat)
    ∧ (∀ m : ℕ → ℕ → Bool,
        (if 0 < bufferPixels 100 30 then
          binaryDilation 1 1 m (bufferPixels 100 30).toNat else m) =
          binaryDilation 1 1 m (bufferPixels 100 30).toNat)
    ∧ (∀ a b : ℤ, (a, b) ∈ struct4 ↔ a.natAbs + b.natAbs ≤ 1) :=
  old_radius_iteration_counts 1 1 500 100 30 (by norm_num)

/-! ## Nearest-neighbour hill distances (`stats.py` lines 120–189)

`compute_hill_distances` explodes multi-part geometries, builds an STRtree
over the parts, and for each part keeps the minimum exact distance to a
candidate other part, recording it only when finite and below the search
radius.  The spatial index is modelled by a candidate function `cands`
(the tree query is a bounding-box over-approximation that must contain
every part within `max_distance_m`, which is the hypothesis the main
theorem carries). -/

/-- Python `round` on integers-and-a-half: round-half-to-even. -/
def roundHalfEven (x : ℚ) : ℤ :=
  if x - ⌊x⌋ = 1 / 2 then (if ⌊x⌋ % 2 = 0 then ⌊x⌋ else ⌊x⌋ + 1)
  else round x

/-- Python `round(x, 1)`: round-half-to-even at one decimal place. -/
def roundTo1 (x : ℚ) : ℚ :=
  (roundHalfEven (10 * x) : ℚ) / 10

/-- The inner-loop update of `min_dist`/`nearest_idx` (`stats.py` lines
165–168, strict `<`, so the first minimum encountered is kept). -/
def updateBest (best : Option (ℚ × ℕ)) (dj : ℚ) (j : ℕ) : Option (ℚ × ℕ) :=
  match best with
  | none => some (dj, j)
  | some (d0, k0) => if dj < d0 then some (dj, j) else some (d0, k0)

/-- The candidate loop of `compute_hill_distances` (`stats.py` lines
161–168): skip the part itself, otherwise fold `updateBest` over the
candidate distances; `none` models `min_dist` staying infinite. -/
def scanNearest (f : ℕ → ℚ) (i : ℕ) :
    Option (ℚ × ℕ) → List ℕ → Option (ℚ × ℕ)
  | acc, [] => acc
  | acc, j :: js =>
    scanNearest f i (if j = i then acc else updateBest acc (f j) j) js

/-- Nearest candidate of part `i` (`min_dist` starts at infinity). -/
def nearestOf (f : ℕ → ℚ) (i : ℕ) (cands : List ℕ) : Option (ℚ × ℕ) :=
  scanNearest f i none cands

/-- The record appended for part `i` (`stats.py` lines 170–175): kept only
when the minimum is finite and strictly below the search radius. -/
def recordOf (dist : ℕ → ℕ → ℚ) (cands : ℕ → List ℕ) (maxd : ℚ) (i : ℕ) :
    Option (ℕ × ℕ × ℚ) :=
  (nearestOf (dist i) i (cands i)).bind fun p =>
    if p.1 < maxd then some (i, p.2, roundTo1 p.1) else none

/-- All nearest-neighbour records over the exploded parts. -/
def hillRecords (n : ℕ) (dist : ℕ → ℕ → ℚ) (cands : ℕ → List ℕ) (maxd : ℚ) :
    List (ℕ × ℕ × ℚ) :=
  (List.range n).filterMap (recordOf dist cands maxd)

/-- Embedded `compute_hill_distances`: `None` for the empty input, the
fewer-than-two-parts guard, and the no-records case; otherwise the
record table. -/
def computeHillDistances {G : Type} [Inhabited G] (multis : List (List G))
    (distG : G → G → ℚ) (cands : ℕ → List ℕ) (maxd : ℚ) :
    Option (List (ℕ × ℕ × ℚ)) :=
  if multis.isEmpty then none
  else
    let parts := multis.flatten
    if parts.length < 2 then none
    else
      let dist := fun a b : ℕ => distG (parts.getD a default) (parts.getD b default)
      let recs := hillRecords parts.length dist cands maxd
      if recs.isEmpty then none else some recs

/-- Distance between exploded parts `a` and `b` of the input. -/
def partDist {G : Type} [Inhabited G] (multis : List (List G))
    (distG : G → G → ℚ) (a b : ℕ) : ℚ :=
  distG (multis.flatten.getD a default) (multis.flatten.getD b default)

/-! ### Loop invariants of the candidate scan -/

theorem updateBest_le (acc : Option (ℚ × ℕ)) (dj : ℚ) (jj : ℕ) :
    ∃ p : ℚ × ℕ, updateBest acc dj jj = some p ∧ p.1 ≤ dj := by
  cases acc with
  | none => exact ⟨(dj, jj), rfl, le_refl _⟩
  | some q =>
    obtain ⟨d0, k0⟩ := q
    by_cases hlt : dj < d0
    · exact ⟨(dj, jj), by simp [updateBest, hlt], le_refl _⟩
    · exact ⟨(d0, k0), by simp [updateBest, hlt], le_of_not_lt hlt⟩

theorem scanNearest_of_acc_some (f : ℕ → ℚ) (i : ℕ) :
    ∀ (l : List ℕ) (p : ℚ × ℕ), ∃ q, scanNearest f i (some p) l = some q := by
  intro l
  induction l with
  | nil => exact fun p => ⟨p, rfl⟩
  | cons j js ih =>
    intro p
    show ∃ q,
      scanNearest f i (if j = i then some p else updateBest (some p) (f j) j) js = some q
    by_cases hji : j = i
    · rw [if_pos hji]
      exact ih p
    · rw [if_neg hji]
      obtain ⟨q, hq, _⟩ := updateBest_le (some p) (f j) j
      rw [hq]
      exact ih q

theorem scanNearest_isSome_of_mem (f : ℕ → ℚ) (i j0 : ℕ) (hne : j0 ≠ i) :
    ∀ (l : List ℕ), j0 ∈ l → ∀ acc, ∃ q, scanNearest f i acc l = some q := by
  intro l
  induction l with
  | nil => intro h; cases h
  | cons j js ih =>
    intro hj acc
    show ∃ q, scanNearest f i (if j = i then acc else updateBest acc (f j) j) js = some q
    rcases List.mem_cons.mp hj with h | h
    · subst h
      rw [if_neg hne]
      obtain ⟨q, hq, _⟩ := updateBest_le acc (f j0) j0
      rw [hq]
      exact scanNearest_of_acc_some f i js q
    · exact ih h _

theorem scanNearest_spec (f : ℕ → ℚ) (i : ℕ) :
    ∀ (l : List ℕ) (acc : Option (ℚ × ℕ)) (d : ℚ) (k : ℕ),
      scanNearest f i acc l = some (d, k) →
      (∀ j ∈ l, j ≠ i → d ≤ f j)
      ∧ (acc = some (d, k) ∨ (k ∈ l ∧ k ≠ i ∧ d = f k))
      ∧ (∀ d0 k0, acc = some (d0, k0) → d ≤ d0) := by
  intro l
  induction l with
  | nil =>
    intro acc d k hs
    refine ⟨fun j hj => absurd hj (List.not_mem_nil j), Or.inl hs, ?_⟩
    intro d0 k0 h0
    rw [h0] at hs
    injection hs with hs2
    rw [(Prod.mk.injEq _ _ _ _).mp hs2 |>.1]
  | cons j js ih =>
    intro acc d k hs
    have hs2 : scanNearest f i (if j = i then acc else updateBest acc (f j) j) js
        = some (d, k) := hs
    obtain ⟨ha, hb, hc⟩ := ih _ d k hs2
    refine ⟨?_, ?_, ?_⟩
    · intro j2 hj2 hne
      rcases List.mem_cons.mp hj2 with h | h
      · subst h
        obtain ⟨q, hq, hqle⟩ := updateBest_le acc (f j2) j2
        have hacc2 : (if j2 = i then acc else updateBest acc (f j2) j2) = some q := by
          rw [if_neg hne, hq]
        have := hc q.1 q.2 (by rw [hacc2])
        exact le_trans this hqle
      · exact ha j2 h hne
    · by_cases hji : j = i
      · rw [if_pos hji] at hb hc
        rcases hb with hb | hb
        · exact Or.inl hb
        · exact Or.inr ⟨List.mem_cons_of_mem j hb.1, hb.2⟩
      · rw [if_neg hji] at hb hc
        rcases hb with hb | hb
        · cases acc with
          | none =>
            injection hb with hb2
            obtain ⟨hd, hk⟩ := (Prod.mk.injEq _ _ _ _).mp hb2
            exact Or.inr ⟨by rw [← hk]; exact List.mem_cons_self j js,
              by rw [← hk]; exact hji, by rw [← hk]; exact hd.symm⟩
          | some q =>
            obtain ⟨d0, k0⟩ := q
            by_cases hlt : f j < d0
            · rw [show updateBest (some (d0, k0)) (f j) j = some (f j, j) from by
                simp [updateBest, hlt]] at hb
              injection hb with hb2
              obtain ⟨hd, hk⟩ := (Prod.mk.injEq _ _ _ _).mp hb2
              exact Or.inr ⟨by rw [← hk]; exact List.mem_cons_self j js,
                by rw [← hk]; exact hji, by rw [← hk]; exact hd.symm⟩
            · rw [show updateBest (some (d0, k0)) (f j) j = some (d0, k0) from by
                simp [updateBest, hlt]] at hb
              exact Or.inl hb
        · exact Or.inr ⟨List.mem_cons_of_mem j hb.1, hb.2⟩
    · intro d0 k0 h0
      subst h0
      by_cases hji : j = i
      · rw [if_pos hji] at hc
        exact hc d0 k0 rfl
      · rw [if_neg hji] at hc
        by_cases hlt : f j < d0
        · have := hc (f j) j (by simp [updateBest, hlt])
          exact le_trans this (le_of_lt hlt)
        · exact hc d0 k0 (by simp [updateBest, hlt])

theorem recordOf_eq_some (dist : ℕ → ℕ → ℚ) (cands : ℕ → List ℕ) (maxd : ℚ)
    (a i k : ℕ) (r : ℚ) :
    recordOf dist cands maxd a = some (i, k, r) ↔
      ∃ d, nearestOf (dist a) a (cands a) = some (d, k) ∧ d < maxd
        ∧ a = i ∧ r = roundTo1 d := by
  unfold recordOf
  rw [Option.bind_eq_some]
  constructor
  · rintro ⟨⟨d, k2⟩, hn, hif⟩
    by_cases hd : d < maxd
    · rw [if_pos hd] at hif
      injection hif with hif2
      obtain ⟨hai, hkk, hrr⟩ := (Prod.mk.injEq _ _ _ _).mp hif2 |>.imp id
        (fun hx => (Prod.mk.injEq _ _ _ _).mp hx)
      exact ⟨d, by rw [← hkk]; exact hn, hd, hai, hrr.symm⟩
    · rw [if_neg hd] at hif
      cases hif
  · rintro ⟨d, hn, hd, rfl, rfl⟩
    exact ⟨(d, k), hn, by rw [if_pos hd]⟩

theorem computeHillDistances_eq_some {G : Type} [Inhabited G]
    (multis : List (List G)) (distG : G → G → ℚ) (cands : ℕ → List ℕ)
    (maxd : ℚ) (l : List (ℕ × ℕ × ℚ))
    (hl : computeHillDistances multis distG cands maxd = some l) :
    l = hillRecords multis.flatten.length
      (fun a b => distG (multis.flatten.getD a default)
        (multis.flatten.getD b default)) cands maxd := by
  simp only [computeHillDistances] at hl
  split at hl
  · cases hl
  · split at hl
    · cases hl
    · split at hl
      · cases hl
      · injection hl with hl2
        exact hl2.symm

/-- Claim C8: `compute_hill_distances` explodes the multi-part input into
parts; when part `i` has some other part strictly inside the search
radius, the table contains a row for `i` whose `nearest_id` is a part at
the global minimum distance (excluding `i` itself); when every other part
is at distance ≥ the radius, no row for `i` appears (the part is omitted
rather than reported with an infinite distance).  The candidate
hypotheses state that the spatial-index query returns indices of parts
and misses no part within the radius. -/
theorem nearest_neighbor_records {G : Type} [Inhabited G]
    (multis : List (List G)) (distG : G → G → ℚ) (cands : ℕ → List ℕ)
    (maxd : ℚ) (i : ℕ)
    (hi : i < multis.flatten.length) (hn : 2 ≤ multis.flatten.length)
    (hsub : ∀ j ∈ cands i, j < multis.flatten.length)
    (hsup : ∀ j, j < multis.flatten.length → j ≠ i →
      partDist multis distG i j ≤ maxd → j ∈ cands i) :
    ((∀ j, j < multis.flatten.length → j ≠ i →
        maxd ≤ partDist multis distG i j) →
      ∀ l, computeHillDistances multis distG cands maxd = some l →
        ∀ k r, (i, k, r) ∉ l)
    ∧ ((∃ j0, j0 < multis.flatten.length ∧ j0 ≠ i
          ∧ partDist multis distG i j0 < maxd) →
      ∃ k d l, computeHillDistances multis distG cands maxd = some l
        ∧ (i, k, roundTo1 d) ∈ l ∧ k < multis.flatten.length ∧ k ≠ i
        ∧ d = partDist multis distG i k
        ∧ ∀ j, j < multis.flatten.length → j ≠ i →
            d ≤ partDist multis distG i j) := by
  constructor
  · intro hfar l hl k r hmem
    rw [computeHillDistances_eq_some multis distG cands maxd l hl] at hmem
    unfold hillRecords at hmem
    rw [List.mem_filterMap] at hmem
    obtain ⟨a, _, hF⟩ := hmem
    rw [recordOf_eq_some] at hF
    obtain ⟨d, hnear, hdlt, rfl, _⟩ := hF
    obtain ⟨_, hb, _⟩ := scanNearest_spec _ a (cands a) none d k hnear
    rcases hb with hb | ⟨hk, hki, hdk⟩
    · cases hb
    · have hklt : k < multis.flatten.length := hsub k hk
      have hmd := hfar k hklt hki
      unfold partDist at hmd
      rw [← hdk] at hmd
      exact absurd hdlt (not_lt.mpr hmd)
  · rintro ⟨j0, hj0lt, hj0ne, hj0d⟩
    have hj0c : j0 ∈ cands i := hsup j0 hj0lt hj0ne (le_of_lt hj0d)
    obtain ⟨⟨d, k⟩, hq⟩ :=
      scanNearest_isSome_of_mem
        (fun b => partDist multis distG i b) i j0 hj0ne (cands i) hj0c none
    obtain ⟨ha, hb, _⟩ :=
      scanNearest_spec (fun b => partDist multis distG i b) i (cands i) none d k hq
    rcases hb with hb | ⟨hk, hki, hdk⟩
    · cases hb
    · have hd0 : d ≤ partDist multis distG i j0 := ha j0 hj0c hj0ne
      have hdlt : d < maxd := lt_of_le_of_lt hd0 hj0d
      have hklt : k < multis.flatten.length := hsub k hk
      have hmin : ∀ j, j < multis.flatten.length → j ≠ i →
          d ≤ partDist multis distG i j := by
        intro j hjlt hjne
        by_cases hjd : partDist multis distG i j ≤ maxd
        · exact ha j (hsup j hjlt hjne hjd) hjne
        · exact le_of_lt (lt_of_lt_of_le hdlt (le_of_not_le hjd))
      have hrec : recordOf
          (fun a b => distG (multis.flatten.getD a default)
            (multis.flatten.getD b default)) cands maxd i =
          some (i, k, roundTo1 d) := by
        rw [recordOf_eq_some]
        exact ⟨d, hq, hdlt, rfl, rfl⟩
      have hmemrec : (i, k, roundTo1 d) ∈ hillRecords multis.flatten.length
          (fun a b => distG (multis.flatten.getD a default)
            (multis.flatten.getD b default)) cands maxd := by
        unfold hillRecords
        rw [List.mem_filterMap]
        exact ⟨i, List.mem_range.mpr hi, hrec⟩
      have hne2 : ¬ multis.flatten.length < 2 := not_lt.mpr hn
      have hnonempty : multis.isEmpty = false := by
        cases hmu : multis with
        | nil => rw [hmu] at hn; simp [List.flatten] at hn
        | cons x xs => rfl
      have hrecs : (hillRecords multis.flatten.length
          (fun a b => distG (multis.flatten.getD a default)
            (multis.flatten.getD b default)) cands maxd).isEmpty = false := by
        rcases hrl : hillRecords multis.flatten.length
            (fun a b => distG (multis.flatten.getD a default)
              (multis.flatten.getD b default)) cands maxd with _ | ⟨x, xs⟩
        · rw [hrl] at hmemrec
          cases hmemrec
        · rfl
      refine ⟨k, d, hillRecords multis.flatten.length
        (fun a b => distG (multis.flatten.getD a default)
          (multis.flatten.getD b default)) cands maxd, ?_, hmemrec, hklt, hki, hdk, hmin⟩
      simp only [computeHillDistances]
      rw [if_neg (by rw [hnonempty]; exact Bool.false_ne_true), if_neg hne2,
        if_neg (by rw [hrecs]; exact Bool.false_ne_true)]

/-- Witness for C8: three single-part hills on a line at positions 0, 7
and 100, search radius 50; hill 0 gets a nearest-neighbour record at the
global minimum distance. -/
theorem nearest_neighbor_records_witness :
    ∃ k d l,
      computeHillDistances [[(0 : ℚ)], [7], [100]] (fun a b => |a - b|)
        (fun _ => [0, 1, 2]) 50 = some l
      ∧ ((0 : ℕ), k, roundTo1 d) ∈ l
      ∧ k < ([[(0 : ℚ)], [7], [100]] : List (List ℚ)).flatten.length
      ∧ k ≠ 0
      ∧ d = partDist [[(0 : ℚ)], [7], [100]] (fun a b => |a - b|) 0 k
      ∧ ∀ j, j < ([[(0 : ℚ)], [7], [100]] : List (List ℚ)).flatten.length →
          j ≠ 0 → d ≤ partDist [[(0 : ℚ)], [7], [100]] (fun a b => |a - b|) 0 j :=
  (nearest_neighbor_records [[(0 : ℚ)], [7], [100]] (fun a b => |a - b|)
      (fun _ => [0, 1, 2]) 50 0
      (by simp) (by simp)
      (by intro j hj; fin_cases hj <;> simp)
      (by
        intro j hj hne hd
        have hj3 : j < 3 := by simpa using hj
        interval_cases j <;> simp)).2
    ⟨1, by simp, by simp,
      by
        show partDist [[(0 : ℚ)], [7], [100]] (fun a b => |a - b|) 0 1 < 50
        norm_num [partDist, List.flatten]⟩

end Aravalli
